import Mathlib

/-!
Verification development for the layered configuration resolution engine of
the pr-maker repository (`initConfig` and its helpers in the source).

The engine is embedded shallowly: JavaScript objects holding configuration
snapshots become association lists from string keys to base values, the
environment becomes a function from variable names to optional strings, the
persisted JSON file becomes an explicit file state, and the interactive
prompt becomes an explicit prompt-state transformer.  All definitions are
translated from the source file; the one exception (the prompt history /
scripted input shim, which the repository's tests import but whose defining
module is not part of the provided sources) is modelled from the spec and
marked as such.
-/

/-- Base JavaScript value stored in a configuration field: the schema's
fields hold strings, numbers, or booleans (spec section 3). -/
inductive JSValue where
  | str (s : String)
  | num (n : Int)
  | bool (b : Bool)
deriving DecidableEq, Repr

/-- JavaScript falsiness for the base values: the empty string, zero and
`false` are falsy (`!currentConfig[key]` in the source). -/
def jsFalsy : JSValue → Bool
  | .str s => s = ""
  | .num n => n = 0
  | .bool b => !b

/-- The `promptIfFalsy` option of the source: absent, a boolean flag, or a
literal prompt message string. -/
inductive PromptIfFalsy where
  | absent
  | flag (b : Bool)
  | message (s : String)
deriving DecidableEq, Repr

/-- JavaScript truthiness of the `promptIfFalsy` option as tested by
`if (options.promptIfFalsy && ...)` in the source. -/
def promptTruthy : PromptIfFalsy → Bool
  | .absent => false
  | .flag b => b
  | .message s => !(s = "")

/-- Options attached to a configuration value (`ConfigValueOptions` in the
source; the unused `cliArgs` member is omitted, nothing in the engine reads
it). -/
structure ConfigValueOptions where
  envOverride : Option String := none
  promptIfFalsy : PromptIfFalsy := .absent
deriving DecidableEq, Repr

/-- JavaScript truthiness of the optional `envOverride` name as tested by
`if (... && options.envOverride)` in the source: present and non-empty. -/
def truthyName : Option String → Option String
  | none => none
  | some s => if s = "" then none else some s

/-- One entry of the default-config object passed to `initConfig`: either a
raw default value or a `configValue` wrapper carrying options. -/
inductive ConfigInput where
  | raw (v : JSValue)
  | wrapped (v : JSValue) (o : ConfigValueOptions)
deriving DecidableEq, Repr

/-- The `configValue` helper of the source: wraps a default value with its
options. -/
def configValue (v : JSValue) (o : ConfigValueOptions) : ConfigInput :=
  .wrapped v o

/-- Unwrapped default value of a schema entry (`inputValue.value` for a
wrapper, the raw value otherwise). -/
def valueOfInput : ConfigInput → JSValue
  | .raw v => v
  | .wrapped v _ => v

/-- Options of a schema entry (empty options for a raw value, as in the
source's `metadataMap.set(keyTyped, opts)`). -/
def optionsOfInput : ConfigInput → ConfigValueOptions
  | .raw _ => {}
  | .wrapped _ o => o

/-- A configuration snapshot: a JavaScript object as an ordered association
list from key to value. -/
abbrev Snapshot := List (String × JSValue)

/-- The schema (the `defaultConfig` argument of `initConfig`): an ordered
object mapping keys to raw defaults or wrapped values. -/
abbrev Schema := List (String × ConfigInput)

/-- Property read on a JavaScript object: the value at the key, if present. -/
def lookupKey {α : Type} : List (String × α) → String → Option α
  | [], _ => none
  | (k', v) :: rest, k => if k' = k then some v else lookupKey rest k

/-- The `key in obj` membership test on a JavaScript object: the key has a
value. -/
def containsKey {α : Type} (l : List (String × α)) (k : String) : Bool :=
  (lookupKey l k).isSome

/-- Property assignment `obj[k] = v` on a JavaScript object: overwrites the
existing entry in place, or appends the key at the end. -/
def setKey : Snapshot → String → JSValue → Snapshot
  | [], k, v => [(k, v)]
  | (k', v') :: rest, k, v =>
      if k' = k then (k', v) :: rest else (k', v') :: setKey rest k v

/-- `Object.assign(target, source)`: assigns every entry of the source
object into the target in order (source of `initConfig`, load-from-file
step). -/
def objAssign (target : Snapshot) (source : Snapshot) : Snapshot :=
  source.foldl (fun acc p => setKey acc p.1 p.2) target

/-- State of the persisted config file at the resolved path: missing
(`Deno.errors.NotFound`), unreadable or unparsable, or a parsed JSON
object. -/
inductive FileState where
  | absent
  | invalid
  | content (entries : Snapshot)
deriving DecidableEq, Repr

/-- Load-from-file step of `initConfig`: a parsed file is merged into the
working snapshot with `Object.assign`; a missing or invalid file is logged
and leaves the defaults in place. -/
def applyFile (cur : Snapshot) : FileState → Snapshot
  | .content entries => objAssign cur entries
  | _ => cur

/-- Base snapshot (`actualDefaultConfig` in the source): unwrapped default
value for every schema key, in schema order. -/
def unwrapDefaults (schema : Schema) : Snapshot :=
  schema.map (fun p => (p.1, valueOfInput p.2))

/-- The `metadataMap` of the source as an ordered entry list: each schema
key with its options. -/
def metaEntries (schema : Schema) : List (String × ConfigValueOptions) :=
  schema.map (fun p => (p.1, optionsOfInput p.2))

/-- Options for a key during resolution: `metadataMap.get(key) ?? {}` in the
source (empty options for keys outside the schema). -/
def optionsOf (schema : Schema) (k : String) : ConfigValueOptions :=
  (lookupKey (metaEntries schema) k).getD {}

/-- The optional `overrideConfig` argument of `initConfig`: an object whose
entries may be explicitly `undefined` (`Partial` values), or no object at
all. -/
abbrev Overrides := Option (List (String × Option JSValue))

/-- Presence and value of a key in the override object: `none` when no
override object was supplied or the key is absent, `some none` when the key
is present with an `undefined` value. -/
def overridesEntry (ov : Overrides) (k : String) : Option (Option JSValue) :=
  match ov with
  | none => none
  | some l => lookupKey l k

/-- Override-then-environment resolution for one key (the body of the
source's `for (const keyAsString in currentConfig)` loop): a present,
non-`undefined` override wins and suppresses the environment check;
otherwise a declared, truthy `envOverride` variable that is present and
non-empty overwrites the value with the raw environment string. -/
def resolveKey (o : ConfigValueOptions) (ov : Overrides)
    (env : String → Option String) (k : String) (v : JSValue) : JSValue :=
  match overridesEntry ov k with
  | some (some w) => w
  | _ =>
    match truthyName o.envOverride with
    | some name =>
      match env name with
      | some s => if s = "" then v else .str s
      | none => v
    | none => v

/-- Override and environment step of `initConfig` applied to the whole
working snapshot: the loop runs over the snapshot's own keys, each updated
independently. -/
def applyOverridesEnv (schema : Schema) (ov : Overrides)
    (env : String → Option String) (cur : Snapshot) : Snapshot :=
  cur.map (fun p => (p.1, resolveKey (optionsOf schema p.1) ov env p.1 p.2))

/-- Working snapshot after the file, override and environment steps of
`initConfig`, just before the prompt step. -/
def prePromptSnapshot (schema : Schema) (ov : Overrides)
    (env : String → Option String) (file : FileState) : Snapshot :=
  applyOverridesEnv schema ov env (applyFile (unwrapDefaults schema) file)

/-- Process-wide prompt state: the Prompt History of recorded messages, the
scripted-input queue, and the remaining terminal input (one optional answer
per blocking read; `none` models a cancelled prompt, and an exhausted list
models end of terminal input). -/
structure PromptState where
  history : List String
  scripted : List String
  terminal : List (Option String)
deriving DecidableEq, Repr

/-- Modelled from the spec: the prompt wrapper whose process-wide state
(`initConfigPromptHistory` and `initConfigScriptedUserInputs`, exported by
the repository's `initConfig.ts` and imported by its tests) is not among the
provided source files.  Per spec section 4.3 step 7, the call records
`{message}` into the Prompt History before resolving, and is answered by
dequeuing the next scripted answer when the scripted-input queue is
non-empty, else by the blocking terminal prompt. -/
def promptShim (ps : PromptState) (message : String) :
    Option String × PromptState :=
  let ps1 : PromptState := { ps with history := ps.history ++ [message] }
  match ps1.scripted with
  | a :: rest => (some a, { ps1 with scripted := rest })
  | [] =>
    match ps1.terminal with
    | t :: rest => (t, { ps1 with terminal := rest })
    | [] => (none, ps1)

/-- Prompt message for a key (source of `initConfig`, prompt step): the
literal `promptIfFalsy` string if one was given, else a generated message
mentioning the env-override name when one is declared, else a generic
message naming the key. -/
def promptMessageFor (k : String) (o : ConfigValueOptions) : String :=
  match o.promptIfFalsy with
  | .message s => s
  | _ =>
    match truthyName o.envOverride with
    | some name =>
        "Please enter value for \x27" ++ k ++ "\x27 (or set env var "
          ++ name ++ "):"
    | none => "Please enter value for \x27" ++ k ++ "\x27:"

/-- Error taxonomy of the engine: prompt cancellation during `initConfig`
and unknown-key rejection in `set` (each thrown as an `Error` with a fixed
message in the source). -/
inductive ConfigError where
  | configIncomplete (key : String)
  | unknownConfigKey (key : String)
deriving DecidableEq, Repr

/-- Message of each thrown error, exactly as built in the source. -/
def errMessage : ConfigError → String
  | .configIncomplete k =>
      "Configuration incomplete: User cancelled prompt for key \x27"
        ++ k ++ "\x27."
  | .unknownConfigKey k =>
      "initConfig(): Attempted to set unknown config key: " ++ k

/-- Falsiness of the current value at a key (`!currentConfig[key]`); an
absent property reads as `undefined`, which is falsy. -/
def jsFalsyAt (cur : Snapshot) (k : String) : Bool :=
  match lookupKey cur k with
  | some v => jsFalsy v
  | none => true

/-- Prompt step of `initConfig` (`for (const [key, options] of
metadataMap.entries())`): for each schema key whose options are prompt-truthy
and whose current value is falsy, prompt; a `null` answer aborts the whole
initialization with a `ConfigIncomplete` error naming the key; a successful
answer is assigned as a raw string and marks the snapshot for saving. -/
def promptLoop : List (String × ConfigValueOptions) → Snapshot → PromptState
    → Bool → Except ConfigError (Snapshot × PromptState × Bool)
  | [], cur, ps, needsSave => .ok (cur, ps, needsSave)
  | (k, o) :: rest, cur, ps, needsSave =>
    if promptTruthy o.promptIfFalsy && jsFalsyAt cur k then
      match promptShim ps (promptMessageFor k o) with
      | (none, _) => .error (.configIncomplete k)
      | (some input, ps1) => promptLoop rest (setKey cur k (.str input)) ps1 true
    else
      promptLoop rest cur ps needsSave

/-- Handle state returned by `initConfig`: the retained base snapshot
(`actualDefaultConfig`, used by `set` for the unknown-key check) and the
working snapshot (`currentConfig`).  The source deep-copies the base
snapshot into the working snapshot with `structuredClone`, so the two are
independent values, which the two separate fields reflect. -/
structure Handle where
  actualDefaultConfig : Snapshot
  currentConfig : Snapshot
deriving DecidableEq, Repr

/-- The `initConfig` engine (source lines 163-357): build the base snapshot
from the schema, clone it, merge the persisted file, apply overrides then
environment variables, prompt for still-falsy keys with prompt options, and
persist the full working snapshot exactly when at least one prompt fired.
Returns the handle state, the resulting file state and the resulting prompt
state, or the error thrown. -/
def initConfig (schema : Schema) (ov : Overrides)
    (env : String → Option String) (file : FileState) (ps : PromptState) :
    Except ConfigError (Handle × FileState × PromptState) :=
  let defaults := unwrapDefaults schema
  let cur2 := prePromptSnapshot schema ov env file
  match promptLoop (metaEntries schema) cur2 ps false with
  | .error e => .error e
  | .ok (cur3, ps1, needsSave) =>
    .ok ({ actualDefaultConfig := defaults, currentConfig := cur3 },
         if needsSave then .content cur3 else file,
         ps1)

/-- The handle's `get` accessor: reads the working snapshot; `none` models
the `undefined` a runtime caller gets for a key with no property. -/
def Handle.get (h : Handle) (k : String) : Option JSValue :=
  lookupKey h.currentConfig k

/-- The handle's `set` operation: rejects a key absent from the original
schema's base snapshot with an `UnknownConfigKey` error before any mutation
or write; otherwise updates the working snapshot and persists the entire
snapshot to the file (full overwrite).  An error therefore yields no
successor handle or file state: the caller keeps the unmodified ones. -/
def Handle.set (h : Handle) (file : FileState) (k : String) (v : JSValue) :
    Except ConfigError (Handle × FileState) :=
  if containsKey h.actualDefaultConfig k then
    let cur := setKey h.currentConfig k v
    .ok ({ h with currentConfig := cur }, .content cur)
  else
    .error (.unknownConfigKey k)

/-- The handle's `toJSON` serialization: the entire working snapshot. -/
def Handle.toJSON (h : Handle) : Snapshot := h.currentConfig

instance {ε α : Type} [DecidableEq ε] [DecidableEq α] :
    DecidableEq (Except ε α) := fun a b =>
  match a, b with
  | .ok x, .ok y =>
    if h : x = y then .isTrue (by rw [h]) else
      .isFalse (fun hc => by cases hc; exact h rfl)
  | .error x, .error y =>
    if h : x = y then .isTrue (by rw [h]) else
      .isFalse (fun hc => by cases hc; exact h rfl)
  | .ok _, .error _ => .isFalse (fun hc => by cases hc)
  | .error _, .ok _ => .isFalse (fun hc => by cases hc)

/-- A sequence of `set` calls on a handle, stopping at the first error (used
to state the frame property over arbitrary call sequences). -/
def setMany (h : Handle) (file : FileState) :
    List (String × JSValue) → Except ConfigError (Handle × FileState)
  | [] => .ok (h, file)
  | (k, v) :: rest =>
    match Handle.set h file k v with
    | .error e => .error e
    | .ok (h1, f1) => setMany h1 f1 rest

theorem lookupKey_setKey_self (l : Snapshot) (k : String) (v : JSValue) :
    lookupKey (setKey l k v) k = some v := by
  induction l with
  | nil => simp [setKey, lookupKey]
  | cons p rest ih =>
    obtain ⟨k', v'⟩ := p
    by_cases h : k' = k
    · simp [setKey, h, lookupKey]
    · simp [setKey, h, lookupKey, ih]

theorem lookupKey_setKey_ne (l : Snapshot) {k' k : String} (v : JSValue)
    (h : k' ≠ k) : lookupKey (setKey l k' v) k = lookupKey l k := by
  induction l with
  | nil => simp [setKey, lookupKey, h]
  | cons p rest ih =>
    obtain ⟨k1, v1⟩ := p
    by_cases h1 : k1 = k'
    · subst h1
      simp [setKey, lookupKey, h]
    · simp [setKey, h1, lookupKey, ih]

theorem lookupKey_eq_none_iff {α : Type} (l : List (String × α)) (k : String) :
    lookupKey l k = none ↔ k ∉ l.map Prod.fst := by
  induction l with
  | nil => simp [lookupKey]
  | cons p rest ih =>
    obtain ⟨k1, v1⟩ := p
    by_cases h : k1 = k
    · subst h
      simp [lookupKey]
    · simp [lookupKey, h, ih, Ne.symm h]

theorem map_fst_setKey (l : Snapshot) (k : String) (v : JSValue) :
    (setKey l k v).map Prod.fst =
      if (lookupKey l k).isSome then l.map Prod.fst
      else l.map Prod.fst ++ [k] := by
  induction l with
  | nil => simp [setKey, lookupKey]
  | cons p rest ih =>
    obtain ⟨k1, v1⟩ := p
    by_cases h : k1 = k
    · simp [setKey, h, lookupKey]
    · simp only [setKey, h, if_false, List.map_cons, lookupKey, ih]
      split <;> simp

theorem nodup_setKey (l : Snapshot) (k : String) (v : JSValue)
    (h : (l.map Prod.fst).Nodup) :
    ((setKey l k v).map Prod.fst).Nodup := by
  rw [map_fst_setKey]
  cases hl : lookupKey l k with
  | some w => simpa using h
  | none =>
    have hk : k ∉ l.map Prod.fst := (lookupKey_eq_none_iff l k).mp hl
    simp [List.nodup_append, h, hk]

theorem objAssign_cons (t : Snapshot) (k : String) (v : JSValue)
    (s : Snapshot) : objAssign t ((k, v) :: s) = objAssign (setKey t k v) s :=
  rfl

theorem lookupKey_objAssign_of_none (t s : Snapshot) (k : String)
    (h : lookupKey s k = none) :
    lookupKey (objAssign t s) k = lookupKey t k := by
  induction s generalizing t with
  | nil => rfl
  | cons p rest ih =>
    obtain ⟨k1, v1⟩ := p
    have hk1 : k1 ≠ k := by
      intro e
      simp [lookupKey, e] at h
    have hr : lookupKey rest k = none := by
      simpa [lookupKey, hk1] using h
    rw [objAssign_cons, ih _ hr, lookupKey_setKey_ne _ _ hk1]

theorem lookupKey_objAssign_of_some (t s : Snapshot) (k : String)
    (v : JSValue) (hnd : (s.map Prod.fst).Nodup)
    (h : lookupKey s k = some v) :
    lookupKey (objAssign t s) k = some v := by
  induction s generalizing t with
  | nil => simp [lookupKey] at h
  | cons p rest ih =>
    obtain ⟨k1, v1⟩ := p
    rw [List.map_cons] at hnd
    obtain ⟨hk1, hrest⟩ := List.nodup_cons.mp hnd
    by_cases e : k1 = k
    · subst e
      have hv : v1 = v := by simpa [lookupKey] using h
      have hs : lookupKey rest k1 = none :=
        (lookupKey_eq_none_iff rest k1).mpr hk1
      rw [objAssign_cons, lookupKey_objAssign_of_none _ _ _ hs,
        lookupKey_setKey_self, hv]
    · have hr : lookupKey rest k = some v := by simpa [lookupKey, e] using h
      rw [objAssign_cons]
      exact ih _ hrest hr

theorem lookupKey_mapValues {α β : Type} (f : String → α → β)
    (l : List (String × α)) (k : String) :
    lookupKey (l.map (fun p => (p.1, f p.1 p.2))) k =
      (lookupKey l k).map (f k) := by
  induction l with
  | nil => simp [lookupKey]
  | cons p rest ih =>
    obtain ⟨k1, v1⟩ := p
    by_cases h : k1 = k
    · subst h
      simp [lookupKey]
    · simp [lookupKey, h, ih]

theorem lookupKey_unwrapDefaults (schema : Schema) (k : String) :
    lookupKey (unwrapDefaults schema) k =
      (lookupKey schema k).map valueOfInput :=
  lookupKey_mapValues (fun _ ci => valueOfInput ci) schema k

theorem lookupKey_metaEntries (schema : Schema) (k : String) :
    lookupKey (metaEntries schema) k =
      (lookupKey schema k).map optionsOfInput :=
  lookupKey_mapValues (fun _ ci => optionsOfInput ci) schema k

theorem map_fst_metaEntries (schema : Schema) :
    (metaEntries schema).map Prod.fst = schema.map Prod.fst := by
  simp [metaEntries]

theorem map_fst_unwrapDefaults (schema : Schema) :
    (unwrapDefaults schema).map Prod.fst = schema.map Prod.fst := by
  simp [unwrapDefaults]

theorem lookupKey_applyOverridesEnv (schema : Schema) (ov : Overrides)
    (env : String → Option String) (cur : Snapshot) (k : String) :
    lookupKey (applyOverridesEnv schema ov env cur) k =
      (lookupKey cur k).map (resolveKey (optionsOf schema k) ov env k) :=
  lookupKey_mapValues (fun k' v => resolveKey (optionsOf schema k') ov env k' v)
    cur k

theorem resolveKey_override (o : ConfigValueOptions) (ov : Overrides)
    (env : String → Option String) (k : String) (v w : JSValue)
    (h : overridesEntry ov k = some (some w)) :
    resolveKey o ov env k v = w := by
  simp [resolveKey, h]

theorem resolveKey_id (o : ConfigValueOptions) (ov : Overrides)
    (env : String → Option String) (k : String) (v : JSValue)
    (hov : overridesEntry ov k = none ∨ overridesEntry ov k = some none)
    (henv : ∀ name, truthyName o.envOverride = some name →
      env name = none ∨ env name = some "") :
    resolveKey o ov env k v = v := by
  have henv' : ∀ name, truthyName o.envOverride = some name →
      (match env name with
        | some s => if s = "" then v else JSValue.str s
        | none => v) = v := by
    intro name hn
    rcases henv name hn with he | he <;> simp [he]
  cases htn : truthyName o.envOverride with
  | none => rcases hov with h | h <;> simp [resolveKey, h, htn]
  | some name =>
    rcases hov with h | h <;>
      simpa [resolveKey, h, htn] using henv' name htn

theorem resolveKey_env (o : ConfigValueOptions) (ov : Overrides)
    (env : String → Option String) (k : String) (v : JSValue)
    (name s : String)
    (hov : overridesEntry ov k = none ∨ overridesEntry ov k = some none)
    (hname : truthyName o.envOverride = some name)
    (hs : env name = some s) (hne : s ≠ "") :
    resolveKey o ov env k v = .str s := by
  rcases hov with h | h <;> simp [resolveKey, h, hname, hs, hne]

theorem promptShim_history (ps : PromptState) (m : String) :
    (promptShim ps m).2.history = ps.history ++ [m] := by
  cases hs : ps.scripted <;> cases ht : ps.terminal <;>
    simp [promptShim, hs, ht]

theorem promptShim_scripted (ps : PromptState) (m a : String)
    (rest : List String) (h : ps.scripted = a :: rest) :
    (promptShim ps m).1 = some a ∧ (promptShim ps m).2.scripted = rest := by
  constructor <;> simp [promptShim, h]

theorem jsFalsyAt_congr (cur cur' : Snapshot) (k : String)
    (h : lookupKey cur' k = lookupKey cur k) :
    jsFalsyAt cur' k = jsFalsyAt cur k := by
  unfold jsFalsyAt
  rw [h]

theorem containsKey_eq_false_of_not_mem {α : Type} (l : List (String × α))
    (k : String) (h : k ∉ l.map Prod.fst) : containsKey l k = false := by
  rw [containsKey, (lookupKey_eq_none_iff l k).mpr h]
  rfl

theorem promptLoop_not_contains
    (entries : List (String × ConfigValueOptions)) (cur : Snapshot)
    (ps : PromptState) (ns : Bool) (cur' : Snapshot) (ps' : PromptState)
    (ns' : Bool) (k : String)
    (hk : containsKey entries k = false)
    (hok : promptLoop entries cur ps ns = .ok (cur', ps', ns')) :
    lookupKey cur' k = lookupKey cur k := by
  induction entries generalizing cur ps ns with
  | nil =>
    simp [promptLoop] at hok
    rw [hok.1]
  | cons p rest ih =>
    obtain ⟨k1, o1⟩ := p
    have hk1 : ¬ k1 = k := by
      intro e
      simp [containsKey, lookupKey, e] at hk
    have hkrest : containsKey rest k = false := by
      simpa [containsKey, lookupKey, hk1] using hk
    simp only [promptLoop] at hok
    split at hok
    · rcases hshim : promptShim ps (promptMessageFor k1 o1) with ⟨ans, ps1⟩
      rw [hshim] at hok
      cases ans with
      | none => simp at hok
      | some input =>
        rw [ih _ _ _ hkrest hok, lookupKey_setKey_ne _ _ hk1]
    · exact ih _ _ _ hkrest hok

theorem promptLoop_no_fire
    (entries : List (String × ConfigValueOptions)) (cur : Snapshot)
    (ps : PromptState) (ns : Bool) (cur' : Snapshot) (ps' : PromptState)
    (ns' : Bool) (k : String) (o : ConfigValueOptions)
    (hnd : (entries.map Prod.fst).Nodup)
    (ho : lookupKey entries k = some o)
    (hfire : (promptTruthy o.promptIfFalsy && jsFalsyAt cur k) = false)
    (hok : promptLoop entries cur ps ns = .ok (cur', ps', ns')) :
    lookupKey cur' k = lookupKey cur k := by
  induction entries generalizing cur ps ns with
  | nil => simp [lookupKey] at ho
  | cons p rest ih =>
    obtain ⟨k1, o1⟩ := p
    rw [List.map_cons] at hnd
    obtain ⟨hk1n, hrest⟩ := List.nodup_cons.mp hnd
    simp only [promptLoop] at hok
    by_cases e : k1 = k
    · subst e
      have ho1 : o1 = o := by simpa [lookupKey] using ho
      subst ho1
      rw [if_neg (by simp [hfire])] at hok
      have hkr : containsKey rest k1 = false :=
        containsKey_eq_false_of_not_mem rest k1 hk1n
      exact promptLoop_not_contains rest cur ps ns _ _ _ _ hkr hok
    · have hor : lookupKey rest k = some o := by simpa [lookupKey, e] using ho
      split at hok
      · rcases hshim : promptShim ps (promptMessageFor k1 o1) with ⟨ans, ps1⟩
        rw [hshim] at hok
        cases ans with
        | none => simp at hok
        | some input =>
          have hlk : lookupKey (setKey cur k1 (.str input)) k = lookupKey cur k :=
            lookupKey_setKey_ne _ _ e
          have hfire1 : (promptTruthy o.promptIfFalsy &&
              jsFalsyAt (setKey cur k1 (.str input)) k) = false := by
            rw [jsFalsyAt_congr cur _ k hlk]
            exact hfire
          rw [ih _ _ _ hrest hor hfire1 hok, hlk]
      · exact ih _ _ _ hrest hor hfire hok

theorem promptLoop_fire
    (entries : List (String × ConfigValueOptions)) (cur : Snapshot)
    (ps : PromptState) (ns : Bool) (cur' : Snapshot) (ps' : PromptState)
    (ns' : Bool) (k : String) (o : ConfigValueOptions)
    (hnd : (entries.map Prod.fst).Nodup)
    (ho : lookupKey entries k = some o)
    (hfire : (promptTruthy o.promptIfFalsy && jsFalsyAt cur k) = true)
    (hok : promptLoop entries cur ps ns = .ok (cur', ps', ns')) :
    ∃ s, lookupKey cur' k = some (JSValue.str s) := by
  induction entries generalizing cur ps ns with
  | nil => simp [lookupKey] at ho
  | cons p rest ih =>
    obtain ⟨k1, o1⟩ := p
    rw [List.map_cons] at hnd
    obtain ⟨hk1n, hrest⟩ := List.nodup_cons.mp hnd
    simp only [promptLoop] at hok
    by_cases e : k1 = k
    · subst e
      have ho1 : o1 = o := by simpa [lookupKey] using ho
      subst ho1
      rw [if_pos (by simp [hfire])] at hok
      rcases hshim : promptShim ps (promptMessageFor k1 o1) with ⟨ans, ps1⟩
      rw [hshim] at hok
      cases ans with
      | none => simp at hok
      | some input =>
        have hkr : containsKey rest k1 = false :=
          containsKey_eq_false_of_not_mem rest k1 hk1n
        have := promptLoop_not_contains rest _ _ _ _ _ _ _ hkr hok
        exact ⟨input, by rw [this, lookupKey_setKey_self]⟩
    · have hor : lookupKey rest k = some o := by simpa [lookupKey, e] using ho
      split at hok
      · rcases hshim : promptShim ps (promptMessageFor k1 o1) with ⟨ans, ps1⟩
        rw [hshim] at hok
        cases ans with
        | none => simp at hok
        | some input =>
          have hlk : lookupKey (setKey cur k1 (.str input)) k = lookupKey cur k :=
            lookupKey_setKey_ne _ _ e
          have hfire1 : (promptTruthy o.promptIfFalsy &&
              jsFalsyAt (setKey cur k1 (.str input)) k) = true := by
            rw [jsFalsyAt_congr cur _ k hlk]
            exact hfire
          exact ih _ _ _ hrest hor hfire1 hok
      · exact ih _ _ _ hrest hor hfire hok

theorem promptLoop_ns
    (entries : List (String × ConfigValueOptions)) (cur : Snapshot)
    (ps : PromptState) (ns : Bool) (cur' : Snapshot) (ps' : PromptState)
    (ns' : Bool)
    (hok : promptLoop entries cur ps ns = .ok (cur', ps', ns')) :
    ns' = (ns || entries.any
      (fun p => promptTruthy p.2.promptIfFalsy && jsFalsyAt cur p.1)) := by
  induction entries generalizing cur ps ns with
  | nil =>
    simp [promptLoop] at hok
    simp [hok.2.2]
  | cons p rest ih =>
    obtain ⟨k1, o1⟩ := p
    simp only [promptLoop] at hok
    split at hok
    case isTrue hcond =>
      rcases hshim : promptShim ps (promptMessageFor k1 o1) with ⟨ans, ps1⟩
      rw [hshim] at hok
      cases ans with
      | none => simp at hok
      | some input =>
        have := ih _ _ _ hok
        simp only [List.any_cons, hcond, Bool.true_or, Bool.or_true]
        simpa using this
    case isFalse hcond =>
      have := ih _ _ _ hok
      simp only [List.any_cons]
      rw [Bool.not_eq_true] at hcond
      simp [hcond, this]

theorem promptLoop_hist
    (entries : List (String × ConfigValueOptions)) (cur : Snapshot)
    (ps : PromptState) (ns : Bool) (cur' : Snapshot) (ps' : PromptState)
    (ns' : Bool)
    (hok : promptLoop entries cur ps ns = .ok (cur', ps', ns')) :
    ∃ ms, ps'.history = ps.history ++ ms := by
  induction entries generalizing cur ps ns with
  | nil =>
    simp [promptLoop] at hok
    exact ⟨[], by simp [← hok.2.1]⟩
  | cons p rest ih =>
    obtain ⟨k1, o1⟩ := p
    simp only [promptLoop] at hok
    split at hok
    · rcases hshim : promptShim ps (promptMessageFor k1 o1) with ⟨ans, ps1⟩
      rw [hshim] at hok
      cases ans with
      | none => simp at hok
      | some input =>
        obtain ⟨ms, hms⟩ := ih _ _ _ hok
        have h1 : ps1.history = ps.history ++ [promptMessageFor k1 o1] := by
          have := promptShim_history ps (promptMessageFor k1 o1)
          rw [hshim] at this
          exact this
        exact ⟨promptMessageFor k1 o1 :: ms, by
          rw [hms, h1, List.append_assoc]
          rfl⟩
    · exact ih _ _ _ hok

theorem promptLoop_error
    (entries : List (String × ConfigValueOptions)) (cur : Snapshot)
    (ps : PromptState) (ns : Bool) (e : ConfigError)
    (he : promptLoop entries cur ps ns = .error e) :
    ∃ k o, (k, o) ∈ entries ∧ promptTruthy o.promptIfFalsy = true ∧
      e = .configIncomplete k := by
  induction entries generalizing cur ps ns with
  | nil => simp [promptLoop] at he
  | cons p rest ih =>
    obtain ⟨k1, o1⟩ := p
    simp only [promptLoop] at he
    split at he
    case isTrue hcond =>
      rcases hshim : promptShim ps (promptMessageFor k1 o1) with ⟨ans, ps1⟩
      rw [hshim] at he
      cases ans with
      | none =>
        have he' : ConfigError.configIncomplete k1 = e := by
          simpa using he
        have hcond' : promptTruthy o1.promptIfFalsy = true ∧
            jsFalsyAt cur k1 = true := by simpa using hcond
        exact ⟨k1, o1, by simp, hcond'.1, he'.symm⟩
      | some input =>
        obtain ⟨k, o, hmem, hp, hee⟩ := ih _ _ _ he
        exact ⟨k, o, by simp [hmem], hp, hee⟩
    case isFalse hcond =>
      obtain ⟨k, o, hmem, hp, hee⟩ := ih _ _ _ he
      exact ⟨k, o, by simp [hmem], hp, hee⟩

theorem initConfig_ok_parts (schema : Schema) (ov : Overrides)
    (env : String → Option String) (file : FileState) (ps : PromptState)
    (res : Handle × FileState × PromptState)
    (hok : initConfig schema ov env file ps = .ok res) :
    ∃ ns', promptLoop (metaEntries schema)
        (prePromptSnapshot schema ov env file) ps false
        = .ok (res.1.currentConfig, res.2.2, ns')
      ∧ res.1.actualDefaultConfig = unwrapDefaults schema
      ∧ res.2.1 = (if ns' then FileState.content res.1.currentConfig
          else file) := by
  simp only [initConfig] at hok
  rcases hpl : promptLoop (metaEntries schema)
      (prePromptSnapshot schema ov env file) ps false with e | ⟨cur3, ps1, ns⟩
  · rw [hpl] at hok
    simp at hok
  · rw [hpl] at hok
    simp only [Except.ok.injEq] at hok
    subst hok
    exact ⟨ns, rfl, rfl, rfl⟩

theorem set_ok_parts (h : Handle) (file : FileState) (k : String)
    (v : JSValue) (h1 : Handle) (f1 : FileState)
    (hset : Handle.set h file k v = .ok (h1, f1)) :
    containsKey h.actualDefaultConfig k = true
    ∧ h1.actualDefaultConfig = h.actualDefaultConfig
    ∧ h1.currentConfig = setKey h.currentConfig k v
    ∧ f1 = .content (setKey h.currentConfig k v) := by
  unfold Handle.set at hset
  split at hset
  case isTrue hc =>
    simp only [Except.ok.injEq, Prod.mk.injEq] at hset
    obtain ⟨hh, hf⟩ := hset
    exact ⟨hc, by rw [← hh], by rw [← hh], hf.symm⟩
  case isFalse hc => simp at hset

theorem setMany_preserves_defaults (ops : List (String × JSValue)) :
    ∀ (h0 : Handle) (f0 : FileState) (h2 : Handle) (f2 : FileState),
    setMany h0 f0 ops = .ok (h2, f2) →
    h2.actualDefaultConfig = h0.actualDefaultConfig := by
  induction ops with
  | nil =>
    intro h0 f0 h2 f2 hm
    simp [setMany] at hm
    rw [← hm.1]
  | cons p rest ih =>
    intro h0 f0 h2 f2 hm
    obtain ⟨k, v⟩ := p
    simp only [setMany] at hm
    rcases hset : Handle.set h0 f0 k v with e | ⟨h1, f1⟩
    · rw [hset] at hm
      simp at hm
    · rw [hset] at hm
      rw [ih _ _ _ _ hm, (set_ok_parts _ _ _ _ _ _ hset).2.1]

/-- C6 [error_handling]: calling `set` with a key absent from the original
schema's base snapshot fails with an `UnknownConfigKey` error whose message
names the key.  The failure is atomic: the check precedes any mutation, so
the call yields no successor handle and no successor file state — the
caller keeps the unmodified snapshot and file. -/
theorem set_unknown_key (h : Handle) (file : FileState) (k : String)
    (v : JSValue) (hk : containsKey h.actualDefaultConfig k = false) :
    Handle.set h file k v = .error (.unknownConfigKey k)
    ∧ errMessage (.unknownConfigKey k) =
        "initConfig(): Attempted to set unknown config key: " ++ k := by
  constructor
  · simp [Handle.set, hk]
  · rfl

theorem set_unknown_key_witness :
    Handle.set ⟨[("foo", .str "hello")], [("foo", .str "hello")]⟩ .absent
        "unknownKey" (.str "some value")
      = .error (.unknownConfigKey "unknownKey")
    ∧ errMessage (.unknownConfigKey "unknownKey") =
        "initConfig(): Attempted to set unknown config key: "
          ++ "unknownKey" :=
  set_unknown_key ⟨[("foo", .str "hello")], [("foo", .str "hello")]⟩
    .absent "unknownKey" (.str "some value") (by decide)

/-- C7 [frame_effect]: the engine never mutates the caller's schema object.
In the value-semantic embedding the `structuredClone` of the source becomes
the separation of the handle's base snapshot from its working snapshot: the
base snapshot a successful `initConfig` retains is exactly the unwrapped
schema defaults, and it stays exactly those defaults after any sequence of
`set` calls on the handle, so a default object entered as `original` is
still `original` after `set` overwrites the working value. -/
theorem schema_never_mutated (schema : Schema) (ov : Overrides)
    (env : String → Option String) (file : FileState) (ps : PromptState)
    (res : Handle × FileState × PromptState)
    (hok : initConfig schema ov env file ps = .ok res) :
    res.1.actualDefaultConfig = unwrapDefaults schema
    ∧ ∀ ops h2 f2, setMany res.1 res.2.1 ops = .ok (h2, f2) →
        h2.actualDefaultConfig = unwrapDefaults schema := by
  obtain ⟨ns, hpl, hdef, hfile⟩ := initConfig_ok_parts _ _ _ _ _ _ hok
  refine ⟨hdef, fun ops h2 f2 hm => ?_⟩
  rw [setMany_preserves_defaults ops _ _ _ _ hm, hdef]

theorem schema_never_mutated_witness :
    ((⟨⟨[("value", JSValue.str "original")],
        [("value", JSValue.str "original")]⟩,
      FileState.absent, (⟨[], [], []⟩ : PromptState)⟩ :
        Handle × FileState × PromptState).1.actualDefaultConfig
      = unwrapDefaults [("value", ConfigInput.raw (JSValue.str "original"))])
    ∧ (∀ ops h2 f2,
        setMany (⟨⟨[("value", JSValue.str "original")],
            [("value", JSValue.str "original")]⟩,
          FileState.absent, (⟨[], [], []⟩ : PromptState)⟩ :
            Handle × FileState × PromptState).1
          (⟨⟨[("value", JSValue.str "original")],
              [("value", JSValue.str "original")]⟩,
            FileState.absent, (⟨[], [], []⟩ : PromptState)⟩ :
              Handle × FileState × PromptState).2.1 ops = .ok (h2, f2) →
        h2.actualDefaultConfig =
          unwrapDefaults [("value", ConfigInput.raw (JSValue.str "original"))]) :=
  schema_never_mutated [("value", ConfigInput.raw (JSValue.str "original"))]
    none (fun _ => none) .absent ⟨[], [], []⟩ _ (by decide)

/-- C4 [frame_effect]: `initConfig` writes the persisted file during
initialization if and only if at least one prompt fired in the prompt step
(the source's loop condition: prompt-truthy options and a falsy pre-prompt
value for some schema key).  When it writes, it persists the entire working
snapshot as a full overwrite; when no prompt fired the file state is left
untouched even though the file, override and environment steps may have
changed in-memory values. -/
theorem initConfig_save_iff (schema : Schema) (ov : Overrides)
    (env : String → Option String) (file : FileState) (ps : PromptState)
    (res : Handle × FileState × PromptState)
    (hok : initConfig schema ov env file ps = .ok res) :
    ((metaEntries schema).any (fun p => promptTruthy p.2.promptIfFalsy &&
        jsFalsyAt (prePromptSnapshot schema ov env file) p.1) = true →
      res.2.1 = .content res.1.currentConfig)
    ∧ ((metaEntries schema).any (fun p => promptTruthy p.2.promptIfFalsy &&
        jsFalsyAt (prePromptSnapshot schema ov env file) p.1) = false →
      res.2.1 = file) := by
  obtain ⟨ns, hpl, hdef, hfile⟩ := initConfig_ok_parts _ _ _ _ _ _ hok
  have hns := promptLoop_ns _ _ _ _ _ _ _ hpl
  rw [Bool.false_or] at hns
  constructor
  · intro hany
    rw [hfile, hns, hany]
    simp
  · intro hany
    rw [hfile, hns, hany]
    simp

theorem initConfig_save_iff_witness :
    (⟨⟨[("githubOrg", JSValue.str "")],
        [("githubOrg", JSValue.str "test-org-scripted")]⟩,
      FileState.content [("githubOrg", JSValue.str "test-org-scripted")],
      (⟨["Please enter value for \x27githubOrg\x27:"], [], []⟩ :
        PromptState)⟩ :
        Handle × FileState × PromptState).2.1
      = .content (⟨⟨[("githubOrg", JSValue.str "")],
          [("githubOrg", JSValue.str "test-org-scripted")]⟩,
        FileState.content [("githubOrg", JSValue.str "test-org-scripted")],
        (⟨["Please enter value for \x27githubOrg\x27:"], [], []⟩ :
          PromptState)⟩ :
          Handle × FileState × PromptState).1.currentConfig :=
  (initConfig_save_iff
    [("githubOrg", configValue (.str "") ⟨none, .flag true⟩)]
    none (fun _ => none) .absent ⟨[], ["test-org-scripted"], []⟩
    ⟨⟨[("githubOrg", JSValue.str "")],
        [("githubOrg", JSValue.str "test-org-scripted")]⟩,
      FileState.content [("githubOrg", JSValue.str "test-org-scripted")],
      ⟨["Please enter value for \x27githubOrg\x27:"], [], []⟩⟩
    (by decide)).1 (by decide)

/-- C9 [error_handling]: a prompt cancellation fails the whole
initialization: whenever `initConfig` returns an error, that error is a
`ConfigIncomplete` naming a schema key whose descriptor declared a truthy
prompt option, its message identifies the key, and the `Except.error`
result carries no handle, so no partial snapshot reaches the caller. -/
theorem initConfig_cancelled (schema : Schema) (ov : Overrides)
    (env : String → Option String) (file : FileState) (ps : PromptState)
    (e : ConfigError)
    (he : initConfig schema ov env file ps = .error e) :
    ∃ k o, (k, o) ∈ metaEntries schema
      ∧ promptTruthy o.promptIfFalsy = true
      ∧ e = .configIncomplete k
      ∧ errMessage e =
          "Configuration incomplete: User cancelled prompt for key \x27"
            ++ k ++ "\x27." := by
  simp only [initConfig] at he
  rcases hpl : promptLoop (metaEntries schema)
      (prePromptSnapshot schema ov env file) ps false with e' | ⟨c, p, n⟩
  · rw [hpl] at he
    have he' : e' = e := by simpa using he
    subst he'
    obtain ⟨k, o, hm, hp, hee⟩ := promptLoop_error _ _ _ _ _ hpl
    exact ⟨k, o, hm, hp, hee, by rw [hee]; rfl⟩
  · rw [hpl] at he
    simp at he

theorem initConfig_cancelled_witness :
    (initConfig [("githubOrg", configValue (.str "") ⟨none, .flag true⟩)]
        none (fun _ => none) .absent ⟨[], [], []⟩ =
      .error (.configIncomplete "githubOrg"))
    ∧ ∃ k o,
        (k, o) ∈ metaEntries
          [("githubOrg", configValue (.str "") ⟨none, .flag true⟩)]
        ∧ promptTruthy o.promptIfFalsy = true
        ∧ (ConfigError.configIncomplete "githubOrg") = .configIncomplete k
        ∧ errMessage (ConfigError.configIncomplete "githubOrg") =
            "Configuration incomplete: User cancelled prompt for key \x27"
              ++ k ++ "\x27." :=
  ⟨by decide,
    initConfig_cancelled [("githubOrg", configValue (.str "") ⟨none, .flag true⟩)]
      none (fun _ => none) .absent ⟨[], [], []⟩
      (.configIncomplete "githubOrg") (by decide)⟩

/-- C3 [functional_correctness]: every interactive prompt performed during
`initConfig` goes through the prompt wrapper, which records `{message}`
into the process-wide Prompt History before resolving — one call appends
exactly its message, and a successful `initConfig` run only ever extends the
history it was given — and when the scripted-input queue is non-empty the
prompt is answered by dequeuing the next scripted answer (in order) instead
of reading the terminal. -/
theorem prompt_records_and_scripts (ps : PromptState) (msg : String) :
    (promptShim ps msg).2.history = ps.history ++ [msg]
    ∧ (∀ a rest, ps.scripted = a :: rest →
        (promptShim ps msg).1 = some a
          ∧ (promptShim ps msg).2.scripted = rest)
    ∧ (∀ schema ov env file ps0 res,
        initConfig schema ov env file ps0 = .ok res →
        res.2.2.history.take ps0.history.length = ps0.history) := by
  refine ⟨promptShim_history ps msg,
    fun a rest h => promptShim_scripted ps msg a rest h, ?_⟩
  intro schema ov env file ps0 res hok
  obtain ⟨ns, hpl, _, _⟩ := initConfig_ok_parts _ _ _ _ _ _ hok
  obtain ⟨ms, hms⟩ := promptLoop_hist _ _ _ _ _ _ _ hpl
  rw [hms]
  exact List.take_left _ _

theorem prompt_records_and_scripts_witness :
    ((promptShim ⟨["old"], ["ans1", "ans2"], []⟩ "m").2.history
        = ["old"] ++ ["m"])
    ∧ ((promptShim ⟨["old"], ["ans1", "ans2"], []⟩ "m").1 = some "ans1"
        ∧ (promptShim ⟨["old"], ["ans1", "ans2"], []⟩ "m").2.scripted
            = ["ans2"]) := by
  have h := prompt_records_and_scripts ⟨["old"], ["ans1", "ans2"], []⟩ "m"
  exact ⟨h.1, h.2.1 "ans1" ["ans2"] rfl⟩

/-- C8 [functional_correctness]: the environment step.  For a key whose
options declare a (truthy) `envOverride` and for which no non-`undefined`
explicit override applies: if the named environment variable is present and
non-empty, the override-and-environment step stores exactly the raw
environment string in the working snapshot (no coercion to the field's base
type); if the variable is unset or empty, the step leaves the key's value
unchanged. -/
theorem env_step_raw_string (schema : Schema) (ov : Overrides)
    (env : String → Option String) (cur : Snapshot) (k name : String)
    (v : JSValue)
    (hov : overridesEntry ov k = none ∨ overridesEntry ov k = some none)
    (hname : truthyName (optionsOf schema k).envOverride = some name)
    (hk : lookupKey cur k = some v) :
    (∀ s, env name = some s → s ≠ "" →
      lookupKey (applyOverridesEnv schema ov env cur) k
        = some (JSValue.str s))
    ∧ ((env name = none ∨ env name = some "") →
      lookupKey (applyOverridesEnv schema ov env cur) k = some v) := by
  constructor
  · intro s hs hne
    rw [lookupKey_applyOverridesEnv, hk]
    have hr := resolveKey_env (optionsOf schema k) ov env k v name s hov
      hname hs hne
    simp [hr]
  · intro he
    rw [lookupKey_applyOverridesEnv, hk]
    have hr := resolveKey_id (optionsOf schema k) ov env k v hov ?_
    · simp [hr]
    · intro name' hn'
      rw [hname] at hn'
      cases hn'
      exact he

theorem optionsOf_eq (schema : Schema) (k : String) (ci : ConfigInput)
    (hk : lookupKey schema k = some ci) :
    optionsOf schema k = optionsOfInput ci := by
  rw [optionsOf, lookupKey_metaEntries, hk]
  rfl

theorem lookupKey_prePrompt (schema : Schema) (ov : Overrides)
    (env : String → Option String) (file : FileState) (k : String) :
    lookupKey (prePromptSnapshot schema ov env file) k =
      (lookupKey (applyFile (unwrapDefaults schema) file) k).map
        (resolveKey (optionsOf schema k) ov env k) := by
  rw [prePromptSnapshot]
  exact lookupKey_applyOverridesEnv schema ov env _ k

theorem get_after_init_no_prompt (schema : Schema) (ov : Overrides)
    (env : String → Option String) (file : FileState) (ps : PromptState)
    (res : Handle × FileState × PromptState) (k : String) (ci : ConfigInput)
    (hnd : (schema.map Prod.fst).Nodup)
    (hk : lookupKey schema k = some ci)
    (hnp : (promptTruthy (optionsOf schema k).promptIfFalsy &&
        jsFalsyAt (prePromptSnapshot schema ov env file) k) = false)
    (hok : initConfig schema ov env file ps = .ok res) :
    Handle.get res.1 k = lookupKey (prePromptSnapshot schema ov env file) k := by
  obtain ⟨ns, hpl, _, _⟩ := initConfig_ok_parts _ _ _ _ _ _ hok
  have hndm : ((metaEntries schema).map Prod.fst).Nodup := by
    rw [map_fst_metaEntries]
    exact hnd
  have ho : lookupKey (metaEntries schema) k = some (optionsOfInput ci) := by
    rw [lookupKey_metaEntries, hk]
    rfl
  rw [optionsOf_eq _ _ _ hk] at hnp
  have := promptLoop_no_fire _ _ _ _ _ _ _ _ _ hndm ho hnp hpl
  simpa [Handle.get] using this

/-- C1 [functional_correctness]: precedence of the data sources.  For a
schema key that the prompt step does not touch (per the claim's own sources,
prompting is a separate last-resort stage for still-falsy fields), the
resolved value follows default < persisted file < environment < explicit
override: a present, non-`undefined` override wins; otherwise a declared
env-override variable that is present and non-empty wins; otherwise a key
present in the parsed file wins; otherwise the schema default is used. -/
theorem initConfig_precedence (schema : Schema) (ov : Overrides)
    (env : String → Option String) (file : FileState) (ps : PromptState)
    (res : Handle × FileState × PromptState) (k : String) (ci : ConfigInput)
    (hnd : (schema.map Prod.fst).Nodup)
    (hfnd : ∀ es, file = .content es → (es.map Prod.fst).Nodup)
    (hk : lookupKey schema k = some ci)
    (hnp : (promptTruthy (optionsOf schema k).promptIfFalsy &&
        jsFalsyAt (prePromptSnapshot schema ov env file) k) = false)
    (hok : initConfig schema ov env file ps = .ok res) :
    (∀ w, overridesEntry ov k = some (some w) →
      Handle.get res.1 k = some w)
    ∧ (∀ name s,
        (overridesEntry ov k = none ∨ overridesEntry ov k = some none) →
        truthyName (optionsOf schema k).envOverride = some name →
        env name = some s → s ≠ "" →
        Handle.get res.1 k = some (JSValue.str s))
    ∧ (∀ es fv,
        (overridesEntry ov k = none ∨ overridesEntry ov k = some none) →
        (∀ name, truthyName (optionsOf schema k).envOverride = some name →
          env name = none ∨ env name = some "") →
        file = .content es → lookupKey es k = some fv →
        Handle.get res.1 k = some fv)
    ∧ ((overridesEntry ov k = none ∨ overridesEntry ov k = some none) →
        (∀ name, truthyName (optionsOf schema k).envOverride = some name →
          env name = none ∨ env name = some "") →
        (∀ es, file = .content es → lookupKey es k = none) →
        Handle.get res.1 k = some (valueOfInput ci)) := by
  have hget := get_after_init_no_prompt schema ov env file ps res k ci hnd
    hk hnp hok
  have hdef : lookupKey (unwrapDefaults schema) k = some (valueOfInput ci) := by
    rw [lookupKey_unwrapDefaults, hk]
    rfl
  have hfl : ∃ u, lookupKey (applyFile (unwrapDefaults schema) file) k
      = some u := by
    cases file with
    | absent => exact ⟨_, hdef⟩
    | invalid => exact ⟨_, hdef⟩
    | content es =>
      cases hes : lookupKey es k with
      | some fv =>
        exact ⟨fv, lookupKey_objAssign_of_some _ _ _ _ (hfnd es rfl) hes⟩
      | none =>
        refine ⟨valueOfInput ci, ?_⟩
        have : applyFile (unwrapDefaults schema) (.content es)
            = objAssign (unwrapDefaults schema) es := rfl
        rw [this, lookupKey_objAssign_of_none _ _ _ hes]
        exact hdef
  refine ⟨?_, ?_, ?_, ?_⟩
  · intro w hw
    obtain ⟨u, hu⟩ := hfl
    rw [hget, lookupKey_prePrompt, hu]
    simp [resolveKey_override _ _ _ _ _ _ hw]
  · intro name s hov hname hs hne
    obtain ⟨u, hu⟩ := hfl
    rw [hget, lookupKey_prePrompt, hu]
    simp [resolveKey_env _ _ _ _ u name s hov hname hs hne]
  · intro es fv hov henv hfile hes
    subst hfile
    have hu : lookupKey (applyFile (unwrapDefaults schema) (.content es)) k
        = some fv :=
      lookupKey_objAssign_of_some _ _ _ _ (hfnd es rfl) hes
    rw [hget, lookupKey_prePrompt, hu]
    simp [resolveKey_id _ _ _ _ fv hov henv]
  · intro hov henv hnofile
    have hu : lookupKey (applyFile (unwrapDefaults schema) file) k
        = some (valueOfInput ci) := by
      cases file with
      | absent => exact hdef
      | invalid => exact hdef
      | content es =>
        have hn := hnofile es rfl
        have : applyFile (unwrapDefaults schema) (.content es)
            = objAssign (unwrapDefaults schema) es := rfl
        rw [this, lookupKey_objAssign_of_none _ _ _ hn]
        exact hdef
    rw [hget, lookupKey_prePrompt, hu]
    simp [resolveKey_id _ _ _ _ (valueOfInput ci) hov henv]

theorem initConfig_precedence_witness :
    Handle.get (⟨⟨[("key", JSValue.str "hello")],
        [("key", JSValue.str "fromoverride")]⟩,
      FileState.content [("key", JSValue.str "fromfile")],
      (⟨[], [], []⟩ : PromptState)⟩ :
        Handle × FileState × PromptState).1 "key"
      = some (JSValue.str "fromoverride") :=
  (initConfig_precedence
    [("key", configValue (.str "hello") ⟨some "KEY_ENV", .absent⟩)]
    (some [("key", some (JSValue.str "fromoverride"))])
    (fun n => if n = "KEY_ENV" then some "fromenv" else none)
    (.content [("key", JSValue.str "fromfile")])
    ⟨[], [], []⟩
    ⟨⟨[("key", JSValue.str "hello")], [("key", JSValue.str "fromoverride")]⟩,
      FileState.content [("key", JSValue.str "fromfile")], ⟨[], [], []⟩⟩
    "key" (configValue (.str "hello") ⟨some "KEY_ENV", .absent⟩)
    (by decide)
    (by intro es h; cases h; decide)
    (by decide) (by decide) (by decide)).1
    (JSValue.str "fromoverride") (by decide)

theorem mem_of_lookupKey {α : Type} (l : List (String × α)) (k : String)
    (v : α) (h : lookupKey l k = some v) : (k, v) ∈ l := by
  induction l with
  | nil => simp [lookupKey] at h
  | cons p rest ih =>
    obtain ⟨k1, v1⟩ := p
    by_cases e : k1 = k
    · subst e
      have : v1 = v := by simpa [lookupKey] using h
      subst this
      exact List.mem_cons_self _ _
    · have : lookupKey rest k = some v := by simpa [lookupKey, e] using h
      exact List.mem_cons_of_mem _ (ih this)

theorem lookupKey_eq_none_of_containsKey_false {α : Type}
    (l : List (String × α)) (k : String) (h : containsKey l k = false) :
    lookupKey l k = none := by
  cases hl : lookupKey l k with
  | none => rfl
  | some v =>
    rw [containsKey, hl] at h
    simp at h

/-- C10 [functional_correctness]: a prompted answer is stored raw.  If the
prompt for a schema key fires during a successful `initConfig` (prompt-truthy
options and falsy pre-prompt value), the value the handle ends up holding for
that key is a raw string — no coercion to the field's declared base type —
so a boolean or number field can hold a string after a prompted
initialization; that string is what `get` returns, what the snapshot
serializes, and what is persisted (the file was written with the full
snapshot because a prompt fired). -/
theorem prompted_value_raw_string (schema : Schema) (ov : Overrides)
    (env : String → Option String) (file : FileState) (ps : PromptState)
    (res : Handle × FileState × PromptState) (k : String)
    (o : ConfigValueOptions)
    (hnd : (schema.map Prod.fst).Nodup)
    (ho : lookupKey (metaEntries schema) k = some o)
    (hfire : (promptTruthy o.promptIfFalsy &&
        jsFalsyAt (prePromptSnapshot schema ov env file) k) = true)
    (hok : initConfig schema ov env file ps = .ok res) :
    ∃ s, Handle.get res.1 k = some (JSValue.str s)
      ∧ res.2.1 = .content res.1.currentConfig
      ∧ lookupKey (Handle.toJSON res.1) k = some (JSValue.str s) := by
  obtain ⟨ns, hpl, _, hfile⟩ := initConfig_ok_parts _ _ _ _ _ _ hok
  have hndm : ((metaEntries schema).map Prod.fst).Nodup := by
    rw [map_fst_metaEntries]
    exact hnd
  obtain ⟨s, hs⟩ := promptLoop_fire _ _ _ _ _ _ _ _ _ hndm ho hfire hpl
  have hns : ns = true := by
    have h1 := promptLoop_ns _ _ _ _ _ _ _ hpl
    rw [Bool.false_or] at h1
    rw [h1, List.any_eq_true]
    exact ⟨(k, o), mem_of_lookupKey _ _ _ ho, hfire⟩
  refine ⟨s, hs, ?_, hs⟩
  rw [hfile, hns]
  simp

theorem prompted_value_raw_string_witness :
    ∃ s,
      Handle.get (⟨⟨[("flag", JSValue.bool false)],
          [("flag", JSValue.str "yes")]⟩,
        FileState.content [("flag", JSValue.str "yes")],
        (⟨["Please enter value for \x27flag\x27:"], [], []⟩ :
          PromptState)⟩ :
          Handle × FileState × PromptState).1 "flag"
        = some (JSValue.str s)
      ∧ (⟨⟨[("flag", JSValue.bool false)],
          [("flag", JSValue.str "yes")]⟩,
        FileState.content [("flag", JSValue.str "yes")],
        (⟨["Please enter value for \x27flag\x27:"], [], []⟩ :
          PromptState)⟩ :
          Handle × FileState × PromptState).2.1
        = .content (⟨⟨[("flag", JSValue.bool false)],
            [("flag", JSValue.str "yes")]⟩,
          FileState.content [("flag", JSValue.str "yes")],
          (⟨["Please enter value for \x27flag\x27:"], [], []⟩ :
            PromptState)⟩ :
            Handle × FileState × PromptState).1.currentConfig
      ∧ lookupKey (Handle.toJSON (⟨⟨[("flag", JSValue.bool false)],
            [("flag", JSValue.str "yes")]⟩,
          FileState.content [("flag", JSValue.str "yes")],
          (⟨["Please enter value for \x27flag\x27:"], [], []⟩ :
            PromptState)⟩ :
            Handle × FileState × PromptState).1) "flag"
        = some (JSValue.str s) :=
  prompted_value_raw_string
    [("flag", configValue (.bool false) ⟨none, .flag true⟩)]
    none (fun _ => none) .absent ⟨[], ["yes"], []⟩
    ⟨⟨[("flag", JSValue.bool false)], [("flag", JSValue.str "yes")]⟩,
      FileState.content [("flag", JSValue.str "yes")],
      ⟨["Please enter value for \x27flag\x27:"], [], []⟩⟩
    "flag" ⟨none, .flag true⟩
    (by decide) (by decide) (by decide) (by decide)

/-- C2 counterexample: a key present in the persisted file but absent from
the schema is NOT ignored, contradicting the claim.  With schema
`{foo: 'hello'}` and file `{foo: 'x', extra: 'surprise'}`, the
`Object.assign` merge puts `extra` into the working snapshot, `get` returns
it, the serialization contains it, and a later `set` of a schema key writes
it back to the file. -/
theorem file_unknown_key_counterexample :
    initConfig [("foo", ConfigInput.raw (JSValue.str "hello"))] none
        (fun _ => none)
        (.content [("foo", JSValue.str "x"), ("extra", JSValue.str "surprise")])
        ⟨[], [], []⟩
      = .ok (⟨[("foo", JSValue.str "hello")],
              [("foo", JSValue.str "x"), ("extra", JSValue.str "surprise")]⟩,
             .content [("foo", JSValue.str "x"),
               ("extra", JSValue.str "surprise")],
             ⟨[], [], []⟩)
    ∧ Handle.get ⟨[("foo", JSValue.str "hello")],
        [("foo", JSValue.str "x"), ("extra", JSValue.str "surprise")]⟩ "extra"
        = some (JSValue.str "surprise")
    ∧ lookupKey (Handle.toJSON ⟨[("foo", JSValue.str "hello")],
        [("foo", JSValue.str "x"), ("extra", JSValue.str "surprise")]⟩) "extra"
        = some (JSValue.str "surprise")
    ∧ Handle.set ⟨[("foo", JSValue.str "hello")],
          [("foo", JSValue.str "x"), ("extra", JSValue.str "surprise")]⟩
        (.content [("foo", JSValue.str "x"), ("extra", JSValue.str "surprise")])
        "foo" (JSValue.str "y")
      = .ok (⟨[("foo", JSValue.str "hello")],
              [("foo", JSValue.str "y"), ("extra", JSValue.str "surprise")]⟩,
             .content [("foo", JSValue.str "y"),
               ("extra", JSValue.str "surprise")]) := by
  refine ⟨by decide, by decide, by decide, by decide⟩

/-- C2 amended [functional_correctness]: when `initConfig` successfully
reads and parses the persisted file, every key of the file overwrites or
extends the working snapshot — including keys absent from the schema, which
then appear in the snapshot, are returned by `get`, are part of the
serialization, and are written back on a later save (`set` itself still
rejects them as targets); schema keys missing from the file keep their
default values (absent effective override, environment value and prompt for
that key). -/
theorem fileMerge_amended (schema : Schema) (env : String → Option String)
    (es : Snapshot) (ps : PromptState)
    (res : Handle × FileState × PromptState) (k : String)
    (hnd : (schema.map Prod.fst).Nodup)
    (hes : (es.map Prod.fst).Nodup)
    (hok : initConfig schema none env (.content es) ps = .ok res) :
    (∀ v, containsKey schema k = false → lookupKey es k = some v →
      Handle.get res.1 k = some v
      ∧ lookupKey (Handle.toJSON res.1) k = some v
      ∧ ∀ k2 v2 h2 f2, Handle.set res.1 res.2.1 k2 v2 = .ok (h2, f2) →
          f2 = .content (setKey res.1.currentConfig k2 v2)
          ∧ lookupKey (setKey res.1.currentConfig k2 v2) k = some v)
    ∧ (∀ ci, lookupKey schema k = some ci → lookupKey es k = none →
        (∀ name, truthyName (optionsOf schema k).envOverride = some name →
          env name = none ∨ env name = some "") →
        (promptTruthy (optionsOf schema k).promptIfFalsy &&
          jsFalsy (valueOfInput ci)) = false →
        Handle.get res.1 k = some (valueOfInput ci)) := by
  obtain ⟨ns, hpl, hdefc, hfile⟩ := initConfig_ok_parts _ _ _ _ _ _ hok
  constructor
  · intro v hcf hesk
    have hkn : lookupKey schema k = none :=
      lookupKey_eq_none_of_containsKey_false _ _ hcf
    have hknm : k ∉ schema.map Prod.fst := (lookupKey_eq_none_iff _ _).mp hkn
    -- value survives the file, override/env and prompt steps
    have hpre : lookupKey (prePromptSnapshot schema none env (.content es)) k
        = some v := by
      rw [lookupKey_prePrompt]
      have h1 : lookupKey (applyFile (unwrapDefaults schema) (.content es)) k
          = some v :=
        lookupKey_objAssign_of_some _ _ _ _ hes hesk
      rw [h1]
      have hopt : optionsOf schema k = {} := by
        rw [optionsOf, lookupKey_metaEntries, hkn]
        rfl
      have hid : resolveKey (optionsOf schema k) none env k v = v := by
        refine resolveKey_id _ _ _ _ _ (Or.inl rfl) ?_
        intro name hn
        rw [hopt] at hn
        cases hn
      simp [hid]
    have hmc : containsKey (metaEntries schema) k = false := by
      apply containsKey_eq_false_of_not_mem
      rw [map_fst_metaEntries]
      exact hknm
    have hcur : lookupKey res.1.currentConfig k = some v := by
      rw [promptLoop_not_contains _ _ _ _ _ _ _ _ hmc hpl]
      exact hpre
    refine ⟨hcur, hcur, ?_⟩
    intro k2 v2 h2 f2 hset
    obtain ⟨hk2, _, _, hf2⟩ := set_ok_parts _ _ _ _ _ _ hset
    have hne : k2 ≠ k := by
      intro e
      subst e
      rw [hdefc] at hk2
      rw [containsKey] at hk2
      have : lookupKey (unwrapDefaults schema) k2 = none := by
        rw [lookupKey_unwrapDefaults, hkn]
        rfl
      rw [this] at hk2
      simp at hk2
    exact ⟨hf2, by rw [lookupKey_setKey_ne _ _ hne]; exact hcur⟩
  · intro ci hci hesk henv hnofire
    have hpre : lookupKey (prePromptSnapshot schema none env (.content es)) k
        = some (valueOfInput ci) := by
      rw [lookupKey_prePrompt]
      have h1 : lookupKey (applyFile (unwrapDefaults schema) (.content es)) k
          = some (valueOfInput ci) := by
        have : applyFile (unwrapDefaults schema) (.content es)
            = objAssign (unwrapDefaults schema) es := rfl
        rw [this, lookupKey_objAssign_of_none _ _ _ hesk,
          lookupKey_unwrapDefaults, hci]
        rfl
      rw [h1]
      simp [resolveKey_id (optionsOf schema k) none env k (valueOfInput ci)
        (Or.inl rfl) henv]
    have hnp : (promptTruthy (optionsOf schema k).promptIfFalsy &&
        jsFalsyAt (prePromptSnapshot schema none env (.content es)) k)
        = false := by
      have hj : jsFalsyAt (prePromptSnapshot schema none env (.content es)) k
          = jsFalsy (valueOfInput ci) := by
        unfold jsFalsyAt
        rw [hpre]
      rw [hj]
      exact hnofire
    have hget := get_after_init_no_prompt schema none env (.content es) ps
      res k ci hnd hci hnp hok
    rw [hget, hpre]

theorem fileMerge_amended_witness :
    Handle.get (⟨⟨[("foo", JSValue.str "hello")],
        [("foo", JSValue.str "x"), ("extra", JSValue.str "surprise")]⟩,
      FileState.content [("foo", JSValue.str "x"),
        ("extra", JSValue.str "surprise")],
      (⟨[], [], []⟩ : PromptState)⟩ :
        Handle × FileState × PromptState).1 "extra"
      = some (JSValue.str "surprise")
    ∧ lookupKey (Handle.toJSON (⟨⟨[("foo", JSValue.str "hello")],
          [("foo", JSValue.str "x"), ("extra", JSValue.str "surprise")]⟩,
        FileState.content [("foo", JSValue.str "x"),
          ("extra", JSValue.str "surprise")],
        (⟨[], [], []⟩ : PromptState)⟩ :
          Handle × FileState × PromptState).1) "extra"
      = some (JSValue.str "surprise") := by
  have h := (fileMerge_amended [("foo", ConfigInput.raw (JSValue.str "hello"))]
    (fun _ => none)
    [("foo", JSValue.str "x"), ("extra", JSValue.str "surprise")]
    ⟨[], [], []⟩
    ⟨⟨[("foo", JSValue.str "hello")],
        [("foo", JSValue.str "x"), ("extra", JSValue.str "surprise")]⟩,
      FileState.content [("foo", JSValue.str "x"),
        ("extra", JSValue.str "surprise")],
      ⟨[], [], []⟩⟩
    "extra" (by decide) (by decide) (by decide)).1
    (JSValue.str "surprise") (by decide) (by decide)
  exact ⟨h.1, h.2.1⟩

/-- C5 counterexample: the round-trip fails for a falsy persisted value on a
key with a prompt option.  After `set('k', '')` succeeds (no overrides, no
matching environment variables), a new `initConfig` finds the persisted
empty string falsy, fires the prompt, and the answered prompt overwrites the
persisted value, so `get('k')` returns the prompt answer rather than the
value that was set. -/
theorem set_roundtrip_counterexample :
    initConfig [("k", configValue (.str "d") ⟨none, .flag true⟩)] none
        (fun _ => none) .absent ⟨[], [], []⟩
      = .ok (⟨[("k", JSValue.str "d")], [("k", JSValue.str "d")]⟩,
             .absent, ⟨[], [], []⟩)
    ∧ Handle.set ⟨[("k", JSValue.str "d")], [("k", JSValue.str "d")]⟩
        .absent "k" (JSValue.str "")
      = .ok (⟨[("k", JSValue.str "d")], [("k", JSValue.str "")]⟩,
             .content [("k", JSValue.str "")])
    ∧ initConfig [("k", configValue (.str "d") ⟨none, .flag true⟩)] none
        (fun _ => none) (.content [("k", JSValue.str "")])
        ⟨[], ["other"], []⟩
      = .ok (⟨[("k", JSValue.str "d")], [("k", JSValue.str "other")]⟩,
             .content [("k", JSValue.str "other")],
             ⟨["Please enter value for \x27k\x27:"], [], []⟩)
    ∧ Handle.get ⟨[("k", JSValue.str "d")], [("k", JSValue.str "other")]⟩ "k"
        = some (JSValue.str "other")
    ∧ some (JSValue.str "other") ≠ some (JSValue.str "") := by
  refine ⟨by decide, by decide, by decide, by decide, by decide⟩

/-- C5 amended [algebraic_relational]: round-trip through persistence.
After `set(k, v)` succeeds on a handle whose base snapshot comes from the
schema, a new `initConfig` for the same schema and file, with no overrides
and no matching environment variables, yields `get(k) = v` — provided the
new call succeeds and does not prompt for `k` (that is, `v` is truthy or
`k`'s descriptor has no truthy `promptIfFalsy`); otherwise an answered
prompt overwrites the persisted value. -/
theorem set_roundtrip_amended (schema : Schema) (h : Handle)
    (file : FileState) (k : String) (v : JSValue) (h2 : Handle)
    (f2 : FileState) (env2 : String → Option String) (ps2 : PromptState)
    (res2 : Handle × FileState × PromptState)
    (hnd : (schema.map Prod.fst).Nodup)
    (hdef : h.actualDefaultConfig = unwrapDefaults schema)
    (hcur : (h.currentConfig.map Prod.fst).Nodup)
    (hset : Handle.set h file k v = .ok (h2, f2))
    (henv : ∀ name, truthyName (optionsOf schema k).envOverride = some name →
      env2 name = none ∨ env2 name = some "")
    (hnp : (promptTruthy (optionsOf schema k).promptIfFalsy && jsFalsy v)
      = false)
    (hok2 : initConfig schema none env2 f2 ps2 = .ok res2) :
    Handle.get res2.1 k = some v := by
  obtain ⟨hkin, hdp, hcurEq, hf⟩ := set_ok_parts _ _ _ _ _ _ hset
  rw [hdef] at hkin
  have hks : ∃ ci, lookupKey schema k = some ci := by
    rw [containsKey] at hkin
    cases hlu : lookupKey (unwrapDefaults schema) k with
    | none =>
      rw [hlu] at hkin
      simp at hkin
    | some u =>
      rw [lookupKey_unwrapDefaults] at hlu
      cases hci : lookupKey schema k with
      | none =>
        rw [hci] at hlu
        simp at hlu
      | some ci => exact ⟨ci, rfl⟩
  obtain ⟨ci, hci⟩ := hks
  have hesnd : ((setKey h.currentConfig k v).map Prod.fst).Nodup :=
    nodup_setKey _ _ _ hcur
  have hpre : lookupKey (prePromptSnapshot schema none env2 f2) k = some v := by
    rw [lookupKey_prePrompt]
    have h1 : lookupKey (applyFile (unwrapDefaults schema) f2) k = some v := by
      rw [hf]
      exact lookupKey_objAssign_of_some _ _ _ _ hesnd
        (lookupKey_setKey_self _ _ _)
    rw [h1]
    simp [resolveKey_id (optionsOf schema k) none env2 k v (Or.inl rfl) henv]
  have hnp2 : (promptTruthy (optionsOf schema k).promptIfFalsy &&
      jsFalsyAt (prePromptSnapshot schema none env2 f2) k) = false := by
    have hj : jsFalsyAt (prePromptSnapshot schema none env2 f2) k
        = jsFalsy v := by
      unfold jsFalsyAt
      rw [hpre]
    rw [hj]
    exact hnp
  have hget := get_after_init_no_prompt schema none env2 f2 ps2 res2 k ci
    hnd hci hnp2 hok2
  rw [hget, hpre]

theorem set_roundtrip_amended_witness :
    Handle.get (⟨⟨[("k", JSValue.str "d")], [("k", JSValue.str "w")]⟩,
      FileState.content [("k", JSValue.str "w")],
      (⟨[], [], []⟩ : PromptState)⟩ :
        Handle × FileState × PromptState).1 "k"
      = some (JSValue.str "w") :=
  set_roundtrip_amended [("k", ConfigInput.raw (JSValue.str "d"))]
    ⟨[("k", JSValue.str "d")], [("k", JSValue.str "d")]⟩
    .absent "k" (JSValue.str "w")
    ⟨[("k", JSValue.str "d")], [("k", JSValue.str "w")]⟩
    (.content [("k", JSValue.str "w")])
    (fun _ => none) ⟨[], [], []⟩
    ⟨⟨[("k", JSValue.str "d")], [("k", JSValue.str "w")]⟩,
      FileState.content [("k", JSValue.str "w")], ⟨[], [], []⟩⟩
    (by decide) (by decide) (by decide) (by decide)
    (by
      intro name hn
      have hz : truthyName
          (optionsOf [("k", ConfigInput.raw (JSValue.str "d"))] "k").envOverride
          = none := by decide
      rw [hz] at hn
      cases hn)
    (by decide) (by decide)

theorem env_step_raw_string_witness :
    (∀ s, (fun n => if n = "MY_VAR" then some "fromenv" else none) "MY_VAR"
        = some s → s ≠ "" →
      lookupKey (applyOverridesEnv
          [("count", configValue (.num 42) ⟨some "MY_VAR", .absent⟩)]
          none (fun n => if n = "MY_VAR" then some "fromenv" else none)
          [("count", JSValue.num 42)]) "count"
        = some (JSValue.str s))
    ∧ (((fun n => if n = "MY_VAR" then some "fromenv" else none) "MY_VAR"
          = none
        ∨ (fun n => if n = "MY_VAR" then some "fromenv" else none) "MY_VAR"
          = some "") →
      lookupKey (applyOverridesEnv
          [("count", configValue (.num 42) ⟨some "MY_VAR", .absent⟩)]
          none (fun n => if n = "MY_VAR" then some "fromenv" else none)
          [("count", JSValue.num 42)]) "count"
        = some (JSValue.num 42)) :=
  env_step_raw_string
    [("count", configValue (.num 42) ⟨some "MY_VAR", .absent⟩)]
    none (fun n => if n = "MY_VAR" then some "fromenv" else none)
    [("count", JSValue.num 42)] "count" "MY_VAR" (JSValue.num 42)
    (Or.inl rfl) (by decide) (by decide)
